import Mathlib

set_option maxHeartbeats 1000000

/-!
Verification development for the P2P gossip network simulation.

The repository contains two drafts of the same gossip core:

* the "node variant": `p2pnode.cc` (class `P2PNode`) driven by
  `p2pnetwork.cc` (class `P2PGossipNetworkSimulation`), and
* the "simulation variant": the self-contained `p2p-gossip-simulation.cc`,
  which embeds its own `Share` struct, `P2PNode` class and orchestrator.

Both variants are shallowly embedded below.  Machine integers (`uint32_t`,
`uint64_t`) are modelled as `Nat`; a `% 2 ^ 32` (resp. `% 2 ^ 64`) is applied
exactly where the C++ performs a narrowing conversion.  The statistics
counters (`sharesSent`, `sharesReceived`, `sharesGenerated`,
`sharesForwarded`) are modelled as unbounded `Nat` event counts; their stored
`uint32_t` values are these counts modulo `2 ^ 32`.  Fallible C++ code
(`std::stoul` / `std::stod`, which throw) is modelled with `Except`.
-/

/-- Exceptions thrown by `std::stoul` / `std::stod`. -/
inductive ParseErr where
  | invalidArgument
  | outOfRange
deriving DecidableEq, Repr

/-- C-locale whitespace, skipped by `strtoul` / `strtod` (hence by
`std::stoul` / `std::stod`). -/
def isSpaceCh (c : Char) : Bool :=
  c = ' ' || c = '\t' || c = '\n' || c = '\x0b' || c = '\x0c' || c = '\r'

/-- Numeric value of a decimal digit character. -/
def digitVal (c : Char) : Nat := c.toNat - '0'.toNat

/-- Value of a list of decimal digit characters, most significant first. -/
def digitsVal (l : List Char) : Nat := l.foldl (fun a c => a * 10 + digitVal c) 0

/-- Core of `std::stoul` (base 10) after whitespace and sign handling: take
the leading run of digits; no digit at all throws `std::invalid_argument`, a
value whose magnitude exceeds `unsigned long` (64-bit) throws
`std::out_of_range`; a `-` sign wraps the value modulo `2 ^ 64` as `strtoul`
does. -/
def stoulCore (l : List Char) (neg : Bool) : Except ParseErr Nat :=
  let ds := l.takeWhile Char.isDigit
  if ds.isEmpty then .error .invalidArgument
  else
    let v := digitsVal ds
    if 2 ^ 64 ≤ v then .error .outOfRange
    else .ok (if neg then (2 ^ 64 - v) % 2 ^ 64 else v)

/-- Model of `std::stoul(str)`: skip C-locale whitespace, accept an optional
sign, then parse a decimal number per `strtoul`. -/
def stoulModel (l : List Char) : Except ParseErr Nat :=
  match l.dropWhile isSpaceCh with
  | '-' :: r => stoulCore r true
  | '+' :: r => stoulCore r false
  | r => stoulCore r false

/-- Success test of `std::stod`: after whitespace and an optional sign the
text must start with a digit, or with `.` followed by a digit (the `inf` /
`nan` / hexfloat spellings accepted by `strtod` are not needed by any input
considered here and are omitted).  On failure `std::stod` throws
`std::invalid_argument`. -/
def stodOk (l : List Char) : Bool :=
  let r := l.dropWhile isSpaceCh
  let r := match r with
    | '-' :: t => t
    | '+' :: t => t
    | t => t
  match r with
  | '.' :: d :: _ => d.isDigit
  | c :: _ => c.isDigit
  | [] => false

/-- First index `≥ k` (counting from `k`) of character `c` in the list. -/
def findIdxFrom (c : Char) : List Char → Nat → Option Nat
  | [], _ => none
  | x :: xs, k => if x = c then some k else findIdxFrom c xs (k + 1)

/-- Model of `std::string::find(c, start)`: `none` models `npos`. -/
def strFind (cs : List Char) (c : Char) (start : Nat) : Option Nat :=
  (findIdxFrom c (cs.drop start) 0).map (start + ·)

/-- The source computes `find(":", firstColon + 1)`.  When `firstColon` is
`npos` (`SIZE_MAX`), `npos + 1` wraps to `0` in `size_t` arithmetic; this
function reproduces that wraparound on the `Option` model. -/
def nposSucc : Option Nat → Nat
  | none => 0
  | some k => k + 1

/-- Decoded share record produced by `Share::FromString` (identical code in
`p2pnode.cc` and `p2p-gossip-simulation.cc`): `originNodeId` and `shareId`
are `uint32_t`; the third field is passed to `std::stod` and stored in a
`double` used only for diagnostics, so its raw text is carried here. -/
structure ShareWire where
  originNodeId : Nat
  shareId : Nat
  tsField : List Char
deriving DecidableEq, Repr

/-- `firstColon` of `Share::FromString`. -/
def colon1 (cs : List Char) : Option Nat := strFind cs ':' 0

/-- `secondColon` of `Share::FromString` (note the `npos + 1` wraparound). -/
def colon2 (cs : List Char) : Option Nat := strFind cs ':' (nposSucc (colon1 cs))

/-- `thirdColon` of `Share::FromString`. -/
def colon3 (cs : List Char) : Option Nat := strFind cs ':' (nposSucc (colon2 cs))

/-- The guard of `Share::FromString`: all three colon positions differ from
`npos`. -/
def fromStringGuard (cs : List Char) : Bool :=
  (colon1 cs).isSome && (colon2 cs).isSome && (colon3 cs).isSome

/-- The default-constructed `Share` returned on malformed input.  The C++
`Share` has no member initializers, so the scalar fields are
default-initialized; they are modelled as `0` (the value the spec ascribes to
the no-op share). -/
def defaultShareWire : ShareWire := ⟨0, 0, []⟩

/-- `std::string::substr(pos, len)` for the in-range uses of the source. -/
def substrModel (cs : List Char) (pos len : Nat) : List Char := (cs.drop pos).take len

/-- Model of `Share::FromString`: locate three colons (with `size_t`
wraparound on the search starts), and if all are present parse the two ids
with `std::stoul` (each narrowed to `uint32_t` on assignment) and the
timestamp with `std::stod`; otherwise return the default share. -/
def fromStringModel (s : String) : Except ParseErr ShareWire :=
  match colon1 s.data, colon2 s.data, colon3 s.data with
  | some c1, some c2, some c3 =>
      (stoulModel (substrModel s.data (c1 + 1) (c2 - c1 - 1))).bind fun o =>
        (stoulModel (substrModel s.data (c2 + 1) (c3 - c2 - 1))).bind fun i =>
          if stodOk (s.data.drop (c3 + 1)) then
            .ok ⟨o % 2 ^ 32, i % 2 ^ 32, s.data.drop (c3 + 1)⟩
          else .error .invalidArgument
  | _, _, _ => .ok defaultShareWire

/-! ### Node variant (`p2pnode.cc`): per-node state -/

/-- State of a `P2PNode` from `p2pnode.cc`.  `socketIds` is the key set of
the `peersockets` map (the transport handles themselves live outside the
core); `processedShares` is the `std::set<uint32_t>`/hash-set of *shareIds*
(the dedup key used by this variant), kept as an insertion-ordered duplicate-
free list. -/
structure StateA where
  id : Nat
  peers : List Nat
  socketIds : Nat → Bool
  processedShares : List Nat
  sharesSent : Nat
  sharesReceived : Nat
  sharesGenerated : Nat
  sharesForwarded : Nat
  isrunning : Bool

/-- The `P2PNode(uint32_t id)` constructor: all counters zero, no peers, no
sockets, `isrunning = false`. -/
def initNodeA (i : Nat) : StateA := ⟨i, [], fun _ => false, [], 0, 0, 0, 0, false⟩

/-- Pointwise update of the socket key set. -/
def setSock (f : Nat → Bool) (k : Nat) (b : Bool) : Nat → Bool :=
  fun q => if q = k then b else f q

/-- Set-insert into the processed-share list (a `std::set`/`unordered_set`
insert is a no-op when the element is present). -/
def processedInsert (x : Nat) (l : List Nat) : List Nat :=
  if x ∈ l then l else l ++ [x]

/-- `P2PNode::AddPeer`: append the peer id only if absent. -/
def addPeerA (st : StateA) (p : Nat) : StateA :=
  if p ∈ st.peers then st else { st with peers := st.peers ++ [p] }

/-- `P2PNode::AddPeerSocket`: `peersockets[peerId] = socket`. -/
def addPeerSocketA (st : StateA) (p : Nat) : StateA :=
  { st with socketIds := setSock st.socketIds p true }

/-- `P2PNode::Stop`: clear `isrunning`, close the server socket and all peer
sockets, and clear the `peersockets` map.  The logical `peers` list is left
untouched. -/
def stopA (st : StateA) : StateA :=
  { st with isrunning := false, socketIds := fun _ => false }

/-- The loop body of `P2PNode::GossipShareToPeers`, iterating over the
`peers` list: a peer without an entry in `peersockets` is skipped; otherwise
`Send` is attempted, whose outcome for each peer id is given by `ok`; success
increments `sharesSent`, failure erases the peer's socket-map entry (the peer
id stays in `peers`) and the loop continues with the remaining peers. -/
def gossipLoop (ok : Nat → Bool) : List Nat → StateA → StateA
  | [], st => st
  | p :: rest, st =>
    if st.socketIds p then
      if ok p then gossipLoop ok rest { st with sharesSent := st.sharesSent + 1 }
      else gossipLoop ok rest { st with socketIds := setSock st.socketIds p false }
    else gossipLoop ok rest st

/-- `P2PNode::GossipShareToPeers` (the serialized share text does not affect
the node's state, so the share argument is dropped). -/
def gossipA (st : StateA) (ok : Nat → Bool) : StateA := gossipLoop ok st.peers st

/-- The characters of the registration tag `"REGISTER:"`. -/
def registerChars : List Char := ['R', 'E', 'G', 'I', 'S', 'T', 'E', 'R', ':']

/-- `shareMsg.find("REGISTER:") == 0`: the message starts with the tag. -/
def startsWithRegister (cs : List Char) : Bool := registerChars.isPrefixOf cs

/-- The share-processing tail of `P2PNode::ReceiveShare` (everything after
the registration check): `sharesReceived++`, decode, drop when the decoded
`shareId` is already in `processedShares`, otherwise record it, increment
`sharesForwarded` and flood to peers. -/
def receiveShareBody (st : StateA) (msg : String) (ok : Nat → Bool) :
    Except ParseErr StateA :=
  let st1 := { st with sharesReceived := st.sharesReceived + 1 }
  (fromStringModel msg).bind fun sh =>
    if sh.shareId ∈ st1.processedShares then .ok st1
    else
      .ok (gossipA
        { st1 with
          processedShares := processedInsert sh.shareId st1.processedShares,
          sharesForwarded := st1.sharesForwarded + 1 } ok)

/-- `P2PNode::ReceiveShare`: a message starting with `"REGISTER:"` records
the sender's socket and *unconditionally* appends the sender's id to `peers`
(`peers.push_back(peerId)`), then returns; any other message goes through
share processing. -/
def receiveShareA (st : StateA) (msg : String) (ok : Nat → Bool) :
    Except ParseErr StateA :=
  if startsWithRegister msg.data then
    match strFind msg.data ':' 0 with
    | some cp =>
        (stoulModel (msg.data.drop (cp + 1))).bind fun pid =>
          .ok { st with
                socketIds := setSock st.socketIds (pid % 2 ^ 32) true,
                peers := st.peers ++ [pid % 2 ^ 32] }
    | none => receiveShareBody st msg ok
  else receiveShareBody st msg ok

/-- `P2PNode::GenerateUniqueShareId`: `seed = id * 1000000 + sharesGenerated
* 1000 + timestep % 1000` (all narrowed from `uint32_t` into the `uint64_t`
seed), hashed with `std::hash<uint64_t>` and truncated to `uint32_t`.
`std::hash<uint64_t>` is the identity function on the common 64-bit standard
libraries (libstdc++ and libc++), and is modelled as such, so the returned
id is the seed reduced modulo `2 ^ 32`. -/
def shareIdA (nid gen tstep : Nat) : Nat :=
  (nid % 2 ^ 32 * 1000000 + gen % 2 ^ 32 * 1000 + tstep % 1000) % 2 ^ 32

/-- `P2PNode::GenerateAndGossipShare` fired at simulator timestep `tstep`:
with no peers it only reschedules; otherwise, if the node is not running it
returns without rescheduling; otherwise it creates a share (fresh id from
`GenerateUniqueShareId`, `sharesGenerated++`, id recorded in
`processedShares`), floods it, and reschedules.  The returned `Bool` is
`true` iff `ScheduleNextShare` was invoked again. -/
def generateAndGossipA (st : StateA) (tstep : Nat) (ok : Nat → Bool) :
    StateA × Bool :=
  if st.peers.isEmpty then (st, true)
  else if st.isrunning then
    let sid := shareIdA st.id st.sharesGenerated tstep
    (gossipA
      { st with
        sharesGenerated := st.sharesGenerated + 1,
        processedShares := processedInsert sid st.processedShares } ok, true)
  else (st, false)

/-- The operations that mutate a node's state in the node variant. -/
inductive OpA where
  | receive (msg : String) (ok : Nat → Bool)
  | generate (tstep : Nat) (ok : Nat → Bool)
  | stop
  | start
  | addPeer (p : Nat)
  | addPeerSocket (p : Nat)

/-- One operation applied to a node (`start` is `StartGeneratingShares`,
which sets `isrunning = true` before scheduling). -/
def stepA (st : StateA) : OpA → Except ParseErr StateA
  | .receive msg ok => receiveShareA st msg ok
  | .generate t ok => .ok (generateAndGossipA st t ok).1
  | .stop => .ok (stopA st)
  | .start => .ok { st with isrunning := true }
  | .addPeer p => .ok (addPeerA st p)
  | .addPeerSocket p => .ok (addPeerSocketA st p)

/-- A sequence of operations applied to a node; an uncaught parse exception
aborts the run. -/
def runA (st : StateA) : List OpA → Except ParseErr StateA
  | [] => .ok st
  | op :: ops => (stepA st op).bind fun st' => runA st' ops

/-- A send-succeeds-everywhere outcome, for concrete evaluations. -/
def okAll : Nat → Bool := fun _ => true

/-! ### Simulation variant (`p2p-gossip-simulation.cc`) -/

/-- The `Share` struct of the simulation variant: identity pair, a `double`
timestamp and a `nodesVisited` set, both used only for diagnostics (the
timestamp is opaque to every operation modelled here). -/
structure ShareB where
  originNodeId : Nat
  shareId : Nat
  timestamp : Nat
  nodesVisited : List Nat

/-- `Share::operator==`: equality on the `(originNodeId, shareId)` pair
only. -/
def shareEqB (x y : ShareB) : Bool :=
  (x.originNodeId == y.originNodeId) && (x.shareId == y.shareId)

/-- `std::hash<Share>`: XOR of the hashes of the two id fields
(`std::hash<uint32_t>` is abstracted as an arbitrary function `h`). -/
def shareHashB (h : Nat → Nat) (x : ShareB) : Nat :=
  h x.originNodeId ^^^ h x.shareId

/-- Set-insert for the pair-keyed processed set of the simulation variant. -/
def pairInsert (x : Nat × Nat) (l : List (Nat × Nat)) : List (Nat × Nat) :=
  if x ∈ l then l else l ++ [x]

/-- State of a `P2PNode` of the simulation variant.  `m_processedShares` is
an `unordered_set<Share>` whose equality is `Share::operator==`, i.e. a set
of `(originNodeId, shareId)` pairs; it is kept as an insertion-ordered
duplicate-free list of pairs. -/
structure StateB where
  id : Nat
  peers : List Nat
  processed : List (Nat × Nat)
  sharesSent : Nat
  sharesReceived : Nat
  sharesGenerated : Nat
  sharesForwarded : Nat

/-- The constructor `P2PNode(uint32_t id)` of the simulation variant. -/
def initNodeB (i : Nat) : StateB := ⟨i, [], [], 0, 0, 0, 0⟩

/-- `GossipShareToPeers` of the simulation variant: the send callback
`m_onSendShare` has no failure channel, so `m_sharesSent` is incremented once
per peer unconditionally. -/
def gossipB (st : StateB) : StateB :=
  { st with sharesSent := st.sharesSent + st.peers.length }

/-- `ReceiveShare` of the simulation variant: `m_sharesReceived++`, decode,
drop when the decoded `(originNodeId, shareId)` pair is already in
`m_processedShares`, otherwise record the pair, increment
`m_sharesForwarded`, and flood to all peers. -/
def receiveShareB (st : StateB) (msg : String) : Except ParseErr StateB :=
  let st1 := { st with sharesReceived := st.sharesReceived + 1 }
  (fromStringModel msg).bind fun sh =>
    if (sh.originNodeId, sh.shareId) ∈ st1.processed then .ok st1
    else
      .ok (gossipB
        { st1 with
          processed := pairInsert (sh.originNodeId, sh.shareId) st1.processed,
          sharesForwarded := st1.sharesForwarded + 1 })

/-- `GenerateAndGossipShare` of the simulation variant: with no peers it only
reschedules (producing no share); otherwise the new share's id is the current
`m_sharesGenerated` value (post-incremented), its pair is recorded in
`m_processedShares`, and it is flooded to all peers.  Rescheduling is
unconditional in this variant (there is no `running` flag).  The produced
identity pair, if any, is returned alongside the new state. -/
def generateAndGossipB (st : StateB) : StateB × Option (Nat × Nat) :=
  if st.peers.isEmpty then (st, none)
  else
    let key := (st.id, st.sharesGenerated)
    (gossipB
      { st with
        sharesGenerated := st.sharesGenerated + 1,
        processed := pairInsert key st.processed }, some key)

/-- `n` successive firings of `GenerateAndGossipShare` on one node, returning
the final state and the list of identity pairs produced. -/
def genRunB (st : StateB) : Nat → StateB × List (Nat × Nat)
  | 0 => (st, [])
  | n + 1 =>
    ((genRunB (generateAndGossipB st).1 n).1,
     ((generateAndGossipB st).2).elim
       (genRunB (generateAndGossipB st).1 n).2
       (· :: (genRunB (generateAndGossipB st).1 n).2))

/-! ### Topology generation (simulation variant) -/

/-- The orchestrator's view of the wired overlay: each node's peer list (as
held by the `P2PNode`s) plus the key list of the `m_connections` map. -/
structure TopoB where
  peers : Nat → List Nat
  links : List (Nat × Nat)

/-- The state before any link is wired. -/
def emptyTopo : TopoB := ⟨fun _ => [], []⟩

/-- `AddPeer` as invoked on node `a` for peer `b` during wiring. -/
def addPeerT (t : TopoB) (a b : Nat) : TopoB :=
  if b ∈ t.peers a then t
  else { t with peers := fun q => if q = a then t.peers a ++ [b] else t.peers q }

/-- `ConnectNodes(i, j, latency)`: record the connection under key `(i, j)`
and register the two nodes in each other's peer lists. -/
def connectNodesT (t : TopoB) (i j : Nat) : TopoB :=
  let t0 := { t with links := t.links ++ [(i, j)] }
  addPeerT (addPeerT t0 i j) j i

/-- The ordered pairs `(i, j)`, `i < j`, enumerated by the double loop of
`CreateRandomTopology`. -/
def pairList (n : Nat) : List (Nat × Nat) :=
  (List.range n).flatMap fun i =>
    ((List.range n).filter (fun j => i < j)).map (fun j => (i, j))

/-- The first pass of `CreateRandomTopology`: each unordered pair is linked
when its random draw falls below the connection probability; `dec i j`
models `dist(rng) < connectionProbability` for pair `(i, j)`. -/
def phase1 (n : Nat) (dec : Nat → Nat → Bool) : TopoB :=
  (pairList n).foldl
    (fun t ij => if dec ij.1 ij.2 then connectNodesT t ij.1 ij.2 else t)
    emptyTopo

/-- The fallback pass of `CreateRandomTopology`: every node still without a
peer draws partner candidates from `uniform_int_distribution(0, n-1)` and
redraws while the draw equals itself (`while (j == i)`).  `draws i` is node
`i`'s stream of draws; exhausting the stream without finding `j ≠ i` models
the C++ loop never exiting, and yields `none`. -/
def phase2 (draws : Nat → List Nat) : List Nat → TopoB → Option TopoB
  | [], t => some t
  | i :: rest, t =>
    if (t.peers i).isEmpty then
      match (draws i).find? (fun j => j != i) with
      | none => none
      | some j => phase2 draws rest (connectNodesT t i j)
    else phase2 draws rest t

/-- `CreateRandomTopology` of the simulation variant: the probabilistic pass
over all pairs followed by the minimum-degree fallback pass over all
nodes. -/
def createRandomTopologyB (n : Nat) (dec : Nat → Nat → Bool)
    (draws : Nat → List Nat) : Option TopoB :=
  phase2 draws (List.range n) (phase1 n dec)

/-- Peer list of node `i` in a possibly-diverged topology result. -/
def peersOf (o : Option TopoB) (i : Nat) : List Nat :=
  o.elim [] (fun t => t.peers i)

/-- Connection keys of a possibly-diverged topology result. -/
def linksOf (o : Option TopoB) : List (Nat × Nat) :=
  o.elim [] TopoB.links

/-! ### Helper lemmas: the flood loop -/

theorem gossipLoop_unch (ok : Nat → Bool) (l : List Nat) (st : StateA) :
    (gossipLoop ok l st).id = st.id ∧
    (gossipLoop ok l st).peers = st.peers ∧
    (gossipLoop ok l st).processedShares = st.processedShares ∧
    (gossipLoop ok l st).sharesReceived = st.sharesReceived ∧
    (gossipLoop ok l st).sharesGenerated = st.sharesGenerated ∧
    (gossipLoop ok l st).sharesForwarded = st.sharesForwarded ∧
    (gossipLoop ok l st).isrunning = st.isrunning := by
  induction l generalizing st with
  | nil => exact ⟨rfl, rfl, rfl, rfl, rfl, rfl, rfl⟩
  | cons p rest ih =>
    unfold gossipLoop
    by_cases hs : st.socketIds p
    · by_cases hk : ok p
      · simpa [hs, hk] using ih { st with sharesSent := st.sharesSent + 1 }
      · simpa [hs, hk] using
          ih { st with socketIds := setSock st.socketIds p false }
    · simpa [hs] using ih st

theorem gossipLoop_sent (ok : Nat → Bool) (l : List Nat) (st : StateA) :
    (gossipLoop ok l st).sharesSent
      = st.sharesSent + (l.filter (fun p => st.socketIds p && ok p)).length := by
  induction l generalizing st with
  | nil => simp [gossipLoop]
  | cons p rest ih =>
    unfold gossipLoop
    by_cases hs : st.socketIds p
    · by_cases hk : ok p
      · have h := ih { st with sharesSent := st.sharesSent + 1 }
        simp only [hs, hk, if_true] at h ⊢
        rw [h]
        simp [List.filter_cons, hs, hk]
        omega
      · have h := ih { st with socketIds := setSock st.socketIds p false }
        simp only [hs, hk, if_true, if_false, Bool.false_eq_true] at h ⊢
        rw [h]
        have hfil : (fun q => setSock st.socketIds p false q && ok q)
            = (fun q => st.socketIds q && ok q) := by
          funext q
          by_cases hq : q = p
          · subst hq; simp [setSock, hs, hk]
          · simp [setSock, hq]
        show st.sharesSent
            + (List.filter (fun q => setSock st.socketIds p false q && ok q)
                rest).length
          = st.sharesSent
            + (List.filter (fun q => st.socketIds q && ok q) (p :: rest)).length
        rw [hfil]
        simp [List.filter_cons, hs, hk]
    · have h := ih st
      simp only [hs, Bool.false_eq_true, if_false] at h ⊢
      rw [h]
      simp [List.filter_cons, hs]

theorem gossipLoop_socks (ok : Nat → Bool) (l : List Nat) (st : StateA)
    (q : Nat) :
    (gossipLoop ok l st).socketIds q
      = (st.socketIds q && (ok q || !(l.contains q))) := by
  induction l generalizing st with
  | nil => simp [gossipLoop]
  | cons p rest ih =>
    unfold gossipLoop
    by_cases hs : st.socketIds p
    · by_cases hk : ok p
      · have h := ih { st with sharesSent := st.sharesSent + 1 }
        simp only [hs, hk, if_true] at h ⊢
        rw [h]
        by_cases hq : q = p
        · subst hq; simp [hs, hk]
        · simp [List.contains_cons, hq]
      · have h := ih { st with socketIds := setSock st.socketIds p false }
        simp only [hs, hk, if_true, if_false, Bool.false_eq_true] at h ⊢
        rw [h]
        by_cases hq : q = p
        · subst hq; simp [setSock, hs, hk]
        · simp [setSock, hq, List.contains_cons]
    · have h := ih st
      simp only [hs, Bool.false_eq_true, if_false] at h ⊢
      rw [h]
      by_cases hq : q = p
      · subst hq; simp [hs]
      · simp [List.contains_cons, hq]

/-! ### Helper lemmas: insertion and receive paths -/

theorem mem_processedInsert_self (x : Nat) (l : List Nat) :
    x ∈ processedInsert x l := by
  unfold processedInsert
  by_cases h : x ∈ l
  · simp [h]
  · simp [h]

theorem count_processedInsert_of_not_mem {x : Nat} {l : List Nat}
    (h : x ∉ l) : (processedInsert x l).count x = 1 := by
  unfold processedInsert
  rw [if_neg h, List.count_append]
  simp [List.count_eq_zero.mpr h]

theorem mem_pairInsert_self (x : Nat × Nat) (l : List (Nat × Nat)) :
    x ∈ pairInsert x l := by
  unfold pairInsert
  by_cases h : x ∈ l
  · simp [h]
  · simp [h]

theorem count_pairInsert_of_not_mem {x : Nat × Nat} {l : List (Nat × Nat)}
    (h : x ∉ l) : (pairInsert x l).count x = 1 := by
  unfold pairInsert
  rw [if_neg h, List.count_append]
  simp [List.count_eq_zero.mpr h]

theorem mem_pairInsert_iff (x y : Nat × Nat) (l : List (Nat × Nat)) :
    y ∈ pairInsert x l ↔ y ∈ l ∨ y = x := by
  unfold pairInsert
  by_cases h : x ∈ l
  · rw [if_pos h]
    constructor
    · exact Or.inl
    · rintro (hy | rfl)
      · exact hy
      · exact h
  · rw [if_neg h]
    simp

theorem receiveA_not_register {msg : String}
    (hreg : startsWithRegister msg.data = false) (st : StateA)
    (ok : Nat → Bool) :
    receiveShareA st msg ok = receiveShareBody st msg ok := by
  unfold receiveShareA
  simp [hreg]

theorem receiveBody_new {msg : String} {sh : ShareWire}
    (hp : fromStringModel msg = .ok sh) (st : StateA) (ok : Nat → Bool)
    (hn : sh.shareId ∉ st.processedShares) :
    receiveShareBody st msg ok
      = .ok (gossipA
          { st with
            sharesReceived := st.sharesReceived + 1,
            processedShares := processedInsert sh.shareId st.processedShares,
            sharesForwarded := st.sharesForwarded + 1 } ok) := by
  unfold receiveShareBody
  rw [hp]
  show (if sh.shareId ∈ st.processedShares then _ else _) = _
  rw [if_neg hn]

theorem receiveBody_dup {msg : String} {sh : ShareWire}
    (hp : fromStringModel msg = .ok sh) (st : StateA) (ok : Nat → Bool)
    (hd : sh.shareId ∈ st.processedShares) :
    receiveShareBody st msg ok
      = .ok { st with sharesReceived := st.sharesReceived + 1 } := by
  unfold receiveShareBody
  rw [hp]
  show (if sh.shareId ∈ st.processedShares then _ else _) = _
  rw [if_pos hd]

theorem receiveB_new {msg : String} {sh : ShareWire}
    (hp : fromStringModel msg = .ok sh) (st : StateB)
    (hn : (sh.originNodeId, sh.shareId) ∉ st.processed) :
    receiveShareB st msg
      = .ok (gossipB
          { st with
            sharesReceived := st.sharesReceived + 1,
            processed := pairInsert (sh.originNodeId, sh.shareId) st.processed,
            sharesForwarded := st.sharesForwarded + 1 }) := by
  unfold receiveShareB
  rw [hp]
  show (if (sh.originNodeId, sh.shareId) ∈ st.processed then _ else _) = _
  rw [if_neg hn]

theorem receiveB_dup {msg : String} {sh : ShareWire}
    (hp : fromStringModel msg = .ok sh) (st : StateB)
    (hd : (sh.originNodeId, sh.shareId) ∈ st.processed) :
    receiveShareB st msg
      = .ok { st with sharesReceived := st.sharesReceived + 1 } := by
  unfold receiveShareB
  rw [hp]
  show (if (sh.originNodeId, sh.shareId) ∈ st.processed then _ else _) = _
  rw [if_pos hd]

/-- Restatement of the field-preservation facts for `gossipA`. -/
theorem gossipA_unch (st : StateA) (ok : Nat → Bool) :
    (gossipA st ok).id = st.id ∧
    (gossipA st ok).peers = st.peers ∧
    (gossipA st ok).processedShares = st.processedShares ∧
    (gossipA st ok).sharesReceived = st.sharesReceived ∧
    (gossipA st ok).sharesGenerated = st.sharesGenerated ∧
    (gossipA st ok).sharesForwarded = st.sharesForwarded ∧
    (gossipA st ok).isrunning = st.isrunning :=
  gossipLoop_unch ok st.peers st

/-- The registration branch of `ReceiveShare` resolved down to the
`std::stoul` call on the digits after the colon. -/
theorem receiveA_register_bind {msg : String} {cp : Nat}
    (hreg : startsWithRegister msg.data = true)
    (hf : strFind msg.data ':' 0 = some cp)
    (st : StateA) (ok : Nat → Bool) :
    receiveShareA st msg ok
      = (stoulModel (msg.data.drop (cp + 1))).bind fun pid =>
          .ok { st with
                socketIds := setSock st.socketIds (pid % 2 ^ 32) true,
                peers := st.peers ++ [pid % 2 ^ 32] } := by
  unfold receiveShareA
  rw [if_pos hreg, hf]

/-- The registration branch of `ReceiveShare`, fully resolved. -/
theorem receiveA_register {msg : String} {cp pid : Nat}
    (hreg : startsWithRegister msg.data = true)
    (hf : strFind msg.data ':' 0 = some cp)
    (hu : stoulModel (msg.data.drop (cp + 1)) = .ok pid)
    (st : StateA) (ok : Nat → Bool) :
    receiveShareA st msg ok
      = .ok { st with
              socketIds := setSock st.socketIds (pid % 2 ^ 32) true,
              peers := st.peers ++ [pid % 2 ^ 32] } := by
  rw [receiveA_register_bind hreg hf st ok, hu]
  rfl

/-- A registration message whose id text does not parse propagates the
`std::stoul` exception. -/
theorem receiveA_register_err {msg : String} {cp : Nat} {e : ParseErr}
    (hreg : startsWithRegister msg.data = true)
    (hf : strFind msg.data ':' 0 = some cp)
    (hu : stoulModel (msg.data.drop (cp + 1)) = .error e)
    (st : StateA) (ok : Nat → Bool) :
    receiveShareA st msg ok = .error e := by
  rw [receiveA_register_bind hreg hf st ok, hu]
  rfl

/-- A message that starts with `"REGISTER:"` but somehow has no colon falls
through to share processing (unreachable for real registration messages,
but part of the source's control flow). -/
theorem receiveA_register_none {msg : String}
    (hreg : startsWithRegister msg.data = true)
    (hf : strFind msg.data ':' 0 = none)
    (st : StateA) (ok : Nat → Bool) :
    receiveShareA st msg ok = receiveShareBody st msg ok := by
  unfold receiveShareA
  rw [if_pos hreg, hf]

/-- `ReceiveShare` preserves `sharesForwarded ≤ sharesReceived`. -/
theorem receiveBody_inv {st : StateA} {msg : String} {ok : Nat → Bool}
    {stm : StateA} (h : receiveShareBody st msg ok = .ok stm)
    (hinv : st.sharesForwarded ≤ st.sharesReceived) :
    stm.sharesForwarded ≤ stm.sharesReceived := by
  cases hp : fromStringModel msg with
  | error e =>
      unfold receiveShareBody at h
      rw [hp] at h
      simp [Except.bind] at h
  | ok sh =>
      by_cases hd : sh.shareId ∈ st.processedShares
      · rw [receiveBody_dup hp st ok hd] at h
        cases h
        exact Nat.le_succ_of_le hinv
      · rw [receiveBody_new hp st ok hd] at h
        cases h
        have u := gossipA_unch
          { st with
            sharesReceived := st.sharesReceived + 1,
            processedShares := processedInsert sh.shareId st.processedShares,
            sharesForwarded := st.sharesForwarded + 1 } ok
        rw [u.2.2.2.2.2.1, u.2.2.2.1]
        exact Nat.succ_le_succ hinv

theorem receiveA_inv {st : StateA} {msg : String} {ok : Nat → Bool}
    {stm : StateA} (h : receiveShareA st msg ok = .ok stm)
    (hinv : st.sharesForwarded ≤ st.sharesReceived) :
    stm.sharesForwarded ≤ stm.sharesReceived := by
  by_cases hreg : startsWithRegister msg.data = true
  · cases hf : strFind msg.data ':' 0 with
    | none =>
        rw [receiveA_register_none hreg hf st ok] at h
        exact receiveBody_inv h hinv
    | some cp =>
        cases hu : stoulModel (msg.data.drop (cp + 1)) with
        | error e =>
            rw [receiveA_register_err hreg hf hu st ok] at h
            cases h
        | ok pid =>
            rw [receiveA_register hreg hf hu st ok] at h
            cases h
            exact hinv
  · have hreg' : startsWithRegister msg.data = false := by simpa using hreg
    rw [receiveA_not_register hreg'] at h
    exact receiveBody_inv h hinv

/-- `GenerateAndGossipShare` leaves the received/forwarded counters
untouched. -/
theorem generateA_counts (st : StateA) (t : Nat) (ok : Nat → Bool) :
    (generateAndGossipA st t ok).1.sharesForwarded = st.sharesForwarded ∧
    (generateAndGossipA st t ok).1.sharesReceived = st.sharesReceived := by
  unfold generateAndGossipA
  by_cases hp : st.peers.isEmpty = true
  · simp [hp]
  · rw [if_neg hp]
    by_cases hr : st.isrunning = true
    · rw [if_pos hr]
      have u := gossipA_unch
        { st with
          sharesGenerated := st.sharesGenerated + 1,
          processedShares :=
            processedInsert (shareIdA st.id st.sharesGenerated t)
              st.processedShares } ok
      exact ⟨u.2.2.2.2.2.1, u.2.2.2.1⟩
    · rw [if_neg hr]
      exact ⟨rfl, rfl⟩

/-- Every operation preserves `sharesForwarded ≤ sharesReceived`. -/
theorem stepA_inv {st : StateA} {op : OpA} {stm : StateA}
    (h : stepA st op = .ok stm)
    (hinv : st.sharesForwarded ≤ st.sharesReceived) :
    stm.sharesForwarded ≤ stm.sharesReceived := by
  cases op with
  | receive msg ok => exact receiveA_inv h hinv
  | generate t ok =>
      cases h
      have := generateA_counts st t ok
      rw [this.1, this.2]
      exact hinv
  | stop => cases h; exact hinv
  | start => cases h; exact hinv
  | addPeer p =>
      cases h
      unfold addPeerA
      by_cases hm : p ∈ st.peers
      · simpa [hm] using hinv
      · simpa [hm] using hinv
  | addPeerSocket p => cases h; exact hinv

/-- C9: When flooding a share, `sharesSent` is incremented exactly for the
peers that hold a live socket and whose send succeeds; a failed send removes
the peer's entry from the socket map while the peer id stays in the logical
peer list; no failed peer is retried, and the loop runs through the whole
peer list.  (`ok p` models `Send(...) > 0` for peer `p`.) -/
theorem flood_failure_policy (st : StateA) (ok : Nat → Bool) :
    (gossipA st ok).peers = st.peers ∧
    (gossipA st ok).processedShares = st.processedShares ∧
    (gossipA st ok).sharesForwarded = st.sharesForwarded ∧
    (gossipA st ok).sharesSent
      = st.sharesSent
        + (st.peers.filter (fun p => st.socketIds p && ok p)).length ∧
    ∀ q, (gossipA st ok).socketIds q
      = (st.socketIds q && (ok q || !(st.peers.contains q))) :=
  ⟨(gossipLoop_unch ok st.peers st).2.1,
   (gossipLoop_unch ok st.peers st).2.2.1,
   (gossipLoop_unch ok st.peers st).2.2.2.2.2.1,
   gossipLoop_sent ok st.peers st,
   fun q => gossipLoop_socks ok st.peers st q⟩

/-- The *event counts* of forwarded receives never exceed those of received
messages: `sharesForwarded` is incremented only inside a `ReceiveShare` that
already incremented `sharesReceived`.  (The `StateA` counters are unbounded
event counts; the program's `uint32_t` fields store them modulo `2 ^ 32`.) -/
theorem runA_fwd_le_recv (st : StateA) (ops : List OpA) (st' : StateA)
    (hinv : st.sharesForwarded ≤ st.sharesReceived)
    (hrun : runA st ops = .ok st') :
    st'.sharesForwarded ≤ st'.sharesReceived := by
  induction ops generalizing st with
  | nil =>
      unfold runA at hrun
      cases hrun
      exact hinv
  | cons op ops ih =>
      unfold runA at hrun
      cases hstep : stepA st op with
      | error e =>
          rw [hstep] at hrun
          simp [Except.bind] at hrun
      | ok stm =>
          rw [hstep] at hrun
          simp only [Except.bind] at hrun
          exact ih stm (stepA_inv hstep hinv) hrun

/-- Receiving the same already-processed share message `n` times only adds
`n` to `sharesReceived` (each delivery is deduplicated). -/
theorem runA_receive_dup_replicate {msg : String} {sh : ShareWire}
    (hp : fromStringModel msg = .ok sh)
    (hreg : startsWithRegister msg.data = false) (ok : Nat → Bool) :
    ∀ (n : Nat) (st : StateA), sh.shareId ∈ st.processedShares →
      runA st (List.replicate n (.receive msg ok))
        = .ok { st with sharesReceived := st.sharesReceived + n } := by
  intro n
  induction n with
  | zero =>
      intro st _
      rfl
  | succ n ih =>
      intro st hm
      show (receiveShareA st msg ok).bind
        (fun st'=> runA st' (List.replicate n (.receive msg ok))) = _
      rw [receiveA_not_register hreg, receiveBody_dup hp st ok hm]
      show runA { st with sharesReceived := st.sharesReceived + 1 }
        (List.replicate n (.receive msg ok)) = _
      rw [ih { st with sharesReceived := st.sharesReceived + 1 } hm]
      have harith : st.sharesReceived + 1 + n = st.sharesReceived + (n + 1) := by
        omega
      show Except.ok
          { st with sharesReceived := st.sharesReceived + 1 + n }
        = Except.ok { st with sharesReceived := st.sharesReceived + (n + 1) }
      rw [harith]

/-- C10 counterexample: the source's counters are `uint32_t` and wrap.
Delivering the share `"SHARE:1:5:0"` to a fresh node once (processed and
forwarded) and then `2 ^ 32 - 1` further times (each deduplicated, moving
only `sharesReceived`) drives the received count to exactly `2 ^ 32`, so the
*stored* `uint32_t` counters at that point read `sharesForwarded = 1` and
`sharesReceived = 0`: the claimed invariant `sharesForwarded ≤
sharesReceived` fails on the wrapped values of this reachable run. -/
theorem forwarded_wrap_cex :
    ((runA (initNodeA 0)
        (OpA.receive "SHARE:1:5:0" okAll ::
          List.replicate (2 ^ 32 - 1) (OpA.receive "SHARE:1:5:0" okAll))).map
      (fun s => (s.sharesForwarded % 2 ^ 32, s.sharesReceived % 2 ^ 32))
      = .ok (1, 0)) ∧ ¬ ((1 : Nat) ≤ 0) := by
  constructor
  · have h1 : receiveShareA (initNodeA 0) "SHARE:1:5:0" okAll
        = .ok ⟨0, [], fun _ => false, [5], 0, 1, 0, 1, false⟩ := by rfl
    have h2 := runA_receive_dup_replicate
      (show fromStringModel "SHARE:1:5:0" = .ok ⟨1, 5, ['0']⟩ from rfl)
      (show startsWithRegister "SHARE:1:5:0".data = false from by decide)
      okAll (2 ^ 32 - 1)
      (⟨0, [], fun _ => false, [5], 0, 1, 0, 1, false⟩ : StateA)
      (by decide)
    have hcons : ∀ (st : StateA) (op : OpA) (ops : List OpA),
        runA st (op :: ops) = (stepA st op).bind fun st' => runA st' ops :=
      fun _ _ _ => rfl
    have hstep : ∀ (st : StateA),
        stepA st (.receive "SHARE:1:5:0" okAll)
          = receiveShareA st "SHARE:1:5:0" okAll :=
      fun _ => rfl
    have hbind : ∀ (s : StateA) (f : StateA → Except ParseErr StateA),
        (Except.ok s).bind f = f s :=
      fun _ _ => rfl
    have hmap : ∀ (s : StateA) (g : StateA → Nat × Nat),
        (Except.ok s : Except ParseErr StateA).map g
          = (Except.ok (g s) : Except ParseErr (Nat × Nat)) :=
      fun _ _ => rfl
    rw [hcons, hstep, h1, hbind, h2, hmap]
    show Except.ok ((1 : Nat) % 2 ^ 32, (1 + (2 ^ 32 - 1)) % 2 ^ 32)
      = .ok (1, 0)
    norm_num
  · decide

/-- C10 (amended): the forwarded *event count* never exceeds the received
*event count* — `sharesForwarded` is incremented only inside a receive-share
processing step that has already incremented `sharesReceived` — so the
invariant holds of the stored `uint32_t` counters at every point of a run
until `sharesReceived` reaches `2 ^ 32`.  Because the stored counters wrap,
the stored-value comparison can fail once the received count wraps past
`2 ^ 32` (see the counterexample). -/
theorem forwarded_le_received_amended :
    (∀ (st : StateA) (ops : List OpA) (st' : StateA),
      st.sharesForwarded ≤ st.sharesReceived →
      runA st ops = .ok st' →
      st'.sharesForwarded ≤ st'.sharesReceived) ∧
    (∀ (st : StateA) (ops : List OpA) (st' : StateA),
      st.sharesForwarded ≤ st.sharesReceived →
      runA st ops = .ok st' →
      st'.sharesReceived < 2 ^ 32 →
      st'.sharesForwarded % 2 ^ 32 ≤ st'.sharesReceived % 2 ^ 32) := by
  constructor
  · exact runA_fwd_le_recv
  · intro st ops st' hinv hrun hlt
    have h := runA_fwd_le_recv st ops st' hinv hrun
    rw [Nat.mod_eq_of_lt (Nat.lt_of_le_of_lt h hlt), Nat.mod_eq_of_lt hlt]
    exact h

theorem forwarded_le_received_amended_witness :
    ((initNodeA 0).sharesForwarded ≤ (initNodeA 0).sharesReceived
      ∧ runA (initNodeA 0) [.receive "SHARE:3:7:12" okAll]
          = .ok ⟨0, [], fun _ => false, [7], 0, 1, 0, 1, false⟩
      ∧ (⟨0, [], fun _ => false, [7], 0, 1, 0, 1, false⟩
          : StateA).sharesReceived < 2 ^ 32) ∧
    ((⟨0, [], fun _ => false, [7], 0, 1, 0, 1, false⟩ : StateA).sharesForwarded
      ≤ (⟨0, [], fun _ => false, [7], 0, 1, 0, 1, false⟩
          : StateA).sharesReceived) ∧
    ((⟨0, [], fun _ => false, [7], 0, 1, 0, 1, false⟩
          : StateA).sharesForwarded % 2 ^ 32
      ≤ (⟨0, [], fun _ => false, [7], 0, 1, 0, 1, false⟩
          : StateA).sharesReceived % 2 ^ 32) :=
  ⟨⟨by decide, by rfl, by decide⟩,
   forwarded_le_received_amended.1 (initNodeA 0)
     [.receive "SHARE:3:7:12" okAll]
     ⟨0, [], fun _ => false, [7], 0, 1, 0, 1, false⟩ (by decide) (by rfl),
   forwarded_le_received_amended.2 (initNodeA 0)
     [.receive "SHARE:3:7:12" okAll]
     ⟨0, [], fun _ => false, [7], 0, 1, 0, 1, false⟩ (by decide) (by rfl)
     (by decide)⟩

/-- C1: Delivering the same share message to a node twice increments the
forwarded counter exactly once (on the first delivery), records the share's
identity in the processed set exactly once, causes sends to peers only on the
first delivery, and drops the second delivery silently (only the received
counter moves).  Stated for the node variant (first conjunct) and the
simulation variant (second conjunct). -/
theorem dedup_idempotent :
    (∀ (st : StateA) (msg : String) (sh : ShareWire) (ok : Nat → Bool),
      fromStringModel msg = .ok sh →
      startsWithRegister msg.data = false →
      sh.shareId ∉ st.processedShares →
      ((receiveShareA st msg ok).map StateA.sharesForwarded
          = .ok (st.sharesForwarded + 1)) ∧
      (((receiveShareA st msg ok).bind fun s => receiveShareA s msg ok).map
          StateA.sharesForwarded = .ok (st.sharesForwarded + 1)) ∧
      (((receiveShareA st msg ok).bind fun s => receiveShareA s msg ok).map
          (fun s => s.processedShares.count sh.shareId) = .ok 1) ∧
      (((receiveShareA st msg ok).bind fun s => receiveShareA s msg ok).map
          StateA.sharesSent
        = (receiveShareA st msg ok).map StateA.sharesSent) ∧
      (((receiveShareA st msg ok).bind fun s => receiveShareA s msg ok).map
          StateA.sharesReceived = .ok (st.sharesReceived + 2)) ∧
      (((receiveShareA st msg ok).bind fun s => receiveShareA s msg ok).map
          StateA.processedShares
        = (receiveShareA st msg ok).map StateA.processedShares)) ∧
    (∀ (st : StateB) (msg : String) (sh : ShareWire),
      fromStringModel msg = .ok sh →
      (sh.originNodeId, sh.shareId) ∉ st.processed →
      ((receiveShareB st msg).map StateB.sharesForwarded
          = .ok (st.sharesForwarded + 1)) ∧
      (((receiveShareB st msg).bind fun s => receiveShareB s msg).map
          StateB.sharesForwarded = .ok (st.sharesForwarded + 1)) ∧
      (((receiveShareB st msg).bind fun s => receiveShareB s msg).map
          (fun s => s.processed.count (sh.originNodeId, sh.shareId))
        = .ok 1) ∧
      (((receiveShareB st msg).bind fun s => receiveShareB s msg).map
          StateB.sharesSent = (receiveShareB st msg).map StateB.sharesSent) ∧
      (((receiveShareB st msg).bind fun s => receiveShareB s msg).map
          StateB.sharesReceived = .ok (st.sharesReceived + 2))) := by
  constructor
  · intro st msg sh ok hp hreg hn
    have h1 : receiveShareA st msg ok
        = .ok (gossipA
            { st with
              sharesReceived := st.sharesReceived + 1,
              processedShares := processedInsert sh.shareId st.processedShares,
              sharesForwarded := st.sharesForwarded + 1 } ok) := by
      rw [receiveA_not_register hreg, receiveBody_new hp st ok hn]
    set stMid : StateA :=
      { st with
        sharesReceived := st.sharesReceived + 1,
        processedShares := processedInsert sh.shareId st.processedShares,
        sharesForwarded := st.sharesForwarded + 1 } with hMid
    have u := gossipA_unch stMid ok
    have hmem : sh.shareId ∈ (gossipA stMid ok).processedShares := by
      rw [u.2.2.1]
      exact mem_processedInsert_self _ _
    have h2 : receiveShareA (gossipA stMid ok) msg ok
        = .ok { gossipA stMid ok with
                sharesReceived := (gossipA stMid ok).sharesReceived + 1 } := by
      rw [receiveA_not_register hreg, receiveBody_dup hp _ ok hmem]
    have hcomp : ((receiveShareA st msg ok).bind fun s => receiveShareA s msg ok)
        = .ok { gossipA stMid ok with
                sharesReceived := (gossipA stMid ok).sharesReceived + 1 } := by
      rw [h1]
      exact h2
    refine ⟨?_, ?_, ?_, ?_, ?_, ?_⟩
    · rw [h1]
      show Except.ok (gossipA stMid ok).sharesForwarded = _
      rw [u.2.2.2.2.2.1]
    · rw [hcomp]
      show Except.ok (gossipA stMid ok).sharesForwarded = _
      rw [u.2.2.2.2.2.1]
    · rw [hcomp]
      show Except.ok ((gossipA stMid ok).processedShares.count sh.shareId) = _
      rw [u.2.2.1]
      rw [count_processedInsert_of_not_mem hn]
    · rw [hcomp, h1]
      rfl
    · rw [hcomp]
      show Except.ok ((gossipA stMid ok).sharesReceived + 1) = _
      rw [u.2.2.2.1]
    · rw [hcomp, h1]
      show Except.ok (gossipA stMid ok).processedShares = _
      rfl
  · intro st msg sh hp hn
    have h1 : receiveShareB st msg
        = .ok (gossipB
            { st with
              sharesReceived := st.sharesReceived + 1,
              processed := pairInsert (sh.originNodeId, sh.shareId) st.processed,
              sharesForwarded := st.sharesForwarded + 1 }) :=
      receiveB_new hp st hn
    have hmem : (sh.originNodeId, sh.shareId) ∈
        (gossipB
          { st with
            sharesReceived := st.sharesReceived + 1,
            processed := pairInsert (sh.originNodeId, sh.shareId) st.processed,
            sharesForwarded := st.sharesForwarded + 1 }).processed :=
      mem_pairInsert_self _ _
    have h2 := receiveB_dup hp
      (gossipB
        { st with
          sharesReceived := st.sharesReceived + 1,
          processed := pairInsert (sh.originNodeId, sh.shareId) st.processed,
          sharesForwarded := st.sharesForwarded + 1 }) hmem
    have hcomp : ((receiveShareB st msg).bind fun s => receiveShareB s msg)
        = .ok { gossipB
                { st with
                  sharesReceived := st.sharesReceived + 1,
                  processed :=
                    pairInsert (sh.originNodeId, sh.shareId) st.processed,
                  sharesForwarded := st.sharesForwarded + 1 } with
                sharesReceived :=
                  (gossipB
                    { st with
                      sharesReceived := st.sharesReceived + 1,
                      processed :=
                        pairInsert (sh.originNodeId, sh.shareId) st.processed,
                      sharesForwarded := st.sharesForwarded + 1 }).sharesReceived
                    + 1 } := by
      rw [h1]
      exact h2
    refine ⟨?_, ?_, ?_, ?_, ?_⟩
    · rw [h1]
      rfl
    · rw [hcomp]
      rfl
    · rw [hcomp]
      show Except.ok
        ((pairInsert (sh.originNodeId, sh.shareId) st.processed).count
          (sh.originNodeId, sh.shareId)) = _
      rw [count_pairInsert_of_not_mem hn]
    · rw [hcomp, h1]
      rfl
    · rw [hcomp]
      rfl

theorem dedup_idempotent_witness :
    (fromStringModel "SHARE:3:7:12" = .ok ⟨3, 7, ['1', '2']⟩
      ∧ startsWithRegister "SHARE:3:7:12".data = false
      ∧ (7 : Nat) ∉ (initNodeA 0).processedShares
      ∧ ((3 : Nat), (7 : Nat)) ∉ (initNodeB 1).processed) ∧
    (((receiveShareA (initNodeA 0) "SHARE:3:7:12" okAll).bind fun s =>
        receiveShareA s "SHARE:3:7:12" okAll).map StateA.sharesForwarded
      = .ok ((initNodeA 0).sharesForwarded + 1)) ∧
    (((receiveShareB (initNodeB 1) "SHARE:3:7:12").bind fun s =>
        receiveShareB s "SHARE:3:7:12").map StateB.sharesForwarded
      = .ok ((initNodeB 1).sharesForwarded + 1)) :=
  ⟨⟨by rfl, by decide, by decide, by decide⟩,
   (dedup_idempotent.1 (initNodeA 0) "SHARE:3:7:12" ⟨3, 7, ['1', '2']⟩ okAll
      (by rfl) (by decide) (by decide)).2.1,
   (dedup_idempotent.2 (initNodeB 1) "SHARE:3:7:12" ⟨3, 7, ['1', '2']⟩
      (by rfl) (by decide)).2.1⟩

/-- C2 counterexample: in the node variant (`p2pnode.cc`), dedup is decided
by `shareId` alone.  Starting from a fresh node, delivering
`"SHARE:1:5:0"` (origin 1, shareId 5) and then `"SHARE:2:5:0"` (origin 2,
same shareId 5) leaves `sharesForwarded = 1` and `sharesReceived = 2` with
`processedShares = [5]`: the second share, although its
`(originNodeId, shareId)` identity differs, is dropped as a duplicate. -/
theorem dedup_ignores_origin_cex :
    ((receiveShareA (initNodeA 0) "SHARE:1:5:0" okAll).bind fun s =>
        receiveShareA s "SHARE:2:5:0" okAll).map
      (fun s => (s.sharesForwarded, s.sharesReceived, s.processedShares))
      = .ok (1, 2, [5]) := by
  rfl

/-- C2 (amended): in the simulation variant, share equality
(`Share::operator==`) and hashing (`std::hash<Share>`) are determined solely
by the `(originNodeId, shareId)` pair — the timestamp and `nodesVisited`
fields never participate — and the dedup decision in that variant's
`ReceiveShare` uses the pair, so a share sharing a `shareId` with an
already-processed share of a *different* origin is still processed and
forwarded.  In the node variant, by contrast, the dedup decision in
`ReceiveShare` keys on `shareId` alone: whenever the decoded `shareId` is in
`processedShares`, the message is dropped with only `sharesReceived`
incremented, regardless of its origin. -/
theorem share_identity_amended :
    (∀ x y : ShareB,
      shareEqB x y = true
        ↔ (x.originNodeId = y.originNodeId ∧ x.shareId = y.shareId)) ∧
    (∀ (h : Nat → Nat) (x y : ShareB),
      x.originNodeId = y.originNodeId → x.shareId = y.shareId →
      shareHashB h x = shareHashB h y) ∧
    (∀ (st : StateB) (msg : String) (sh : ShareWire) (o1 : Nat),
      fromStringModel msg = .ok sh →
      o1 ≠ sh.originNodeId →
      (o1, sh.shareId) ∈ st.processed →
      (sh.originNodeId, sh.shareId) ∉ st.processed →
      (receiveShareB st msg).map StateB.sharesForwarded
        = .ok (st.sharesForwarded + 1)) ∧
    (∀ (st : StateA) (msg : String) (sh : ShareWire) (ok : Nat → Bool),
      fromStringModel msg = .ok sh →
      startsWithRegister msg.data = false →
      sh.shareId ∈ st.processedShares →
      receiveShareA st msg ok
        = .ok { st with sharesReceived := st.sharesReceived + 1 }) ∧
    (∀ (st : StateB) (m1 m2 : String) (sh1 sh2 : ShareWire),
      fromStringModel m1 = .ok sh1 →
      fromStringModel m2 = .ok sh2 →
      sh1.shareId = sh2.shareId →
      sh1.originNodeId ≠ sh2.originNodeId →
      (sh1.originNodeId, sh1.shareId) ∉ st.processed →
      (sh2.originNodeId, sh2.shareId) ∉ st.processed →
      ((receiveShareB st m1).bind fun s => receiveShareB s m2).map
          StateB.sharesForwarded = .ok (st.sharesForwarded + 2)) := by
  refine ⟨?_, ?_, ?_, ?_, ?_⟩
  · intro x y
    unfold shareEqB
    simp [Bool.and_eq_true, beq_iff_eq]
  · intro h x y h1 h2
    unfold shareHashB
    rw [h1, h2]
  · intro st msg sh o1 hp _ _ hn
    rw [receiveB_new hp st hn]
    rfl
  · intro st msg sh ok hp hreg hd
    rw [receiveA_not_register hreg, receiveBody_dup hp st ok hd]
  · intro st m1 m2 sh1 sh2 hp1 hp2 hsid horg hn1 hn2
    rw [receiveB_new hp1 st hn1]
    have hn2' : (sh2.originNodeId, sh2.shareId) ∉
        (gossipB
          { st with
            sharesReceived := st.sharesReceived + 1,
            processed := pairInsert (sh1.originNodeId, sh1.shareId) st.processed,
            sharesForwarded := st.sharesForwarded + 1 }).processed := by
      show (sh2.originNodeId, sh2.shareId)
        ∉ pairInsert (sh1.originNodeId, sh1.shareId) st.processed
      rw [mem_pairInsert_iff]
      rintro (hm | he)
      · exact hn2 hm
      · exact horg (congrArg Prod.fst he).symm
    show ((receiveShareB
        (gossipB
          { st with
            sharesReceived := st.sharesReceived + 1,
            processed := pairInsert (sh1.originNodeId, sh1.shareId) st.processed,
            sharesForwarded := st.sharesForwarded + 1 }) m2)).map
        StateB.sharesForwarded = .ok (st.sharesForwarded + 2)
    rw [receiveB_new hp2 _ hn2']
    rfl

theorem share_identity_amended_witness :
    (fromStringModel "SHARE:2:5:0" = .ok ⟨2, 5, ['0']⟩
      ∧ fromStringModel "SHARE:1:5:0" = .ok ⟨1, 5, ['0']⟩
      ∧ (1 : Nat) ≠ 2
      ∧ ((1 : Nat), (5 : Nat)) ∈ [((1 : Nat), (5 : Nat))]
      ∧ ((2 : Nat), (5 : Nat)) ∉ [((1 : Nat), (5 : Nat))]
      ∧ startsWithRegister "SHARE:2:5:0".data = false
      ∧ (5 : Nat) ∈ [(5 : Nat)]
      ∧ ((1 : Nat), (5 : Nat)) ∉ (initNodeB 4).processed
      ∧ ((2 : Nat), (5 : Nat)) ∉ (initNodeB 4).processed) ∧
    ((receiveShareB { initNodeB 9 with processed := [(1, 5)] }
        "SHARE:2:5:0").map StateB.sharesForwarded
      = .ok ({ initNodeB 9 with processed := [(1, 5)] }.sharesForwarded + 1)) ∧
    (receiveShareA { initNodeA 9 with processedShares := [5] }
        "SHARE:2:5:0" okAll
      = .ok { { initNodeA 9 with processedShares := [5] } with
              sharesReceived :=
                { initNodeA 9 with processedShares := [5] }.sharesReceived
                  + 1 }) ∧
    (((receiveShareB (initNodeB 4) "SHARE:1:5:0").bind fun s =>
        receiveShareB s "SHARE:2:5:0").map StateB.sharesForwarded
      = .ok ((initNodeB 4).sharesForwarded + 2)) :=
  ⟨⟨by rfl, by rfl, by decide, by decide, by decide, by decide, by decide,
    by decide, by decide⟩,
   share_identity_amended.2.2.1 { initNodeB 9 with processed := [(1, 5)] }
     "SHARE:2:5:0" ⟨2, 5, ['0']⟩ 1 (by rfl) (by decide) (by decide) (by decide),
   share_identity_amended.2.2.2.1 { initNodeA 9 with processedShares := [5] }
     "SHARE:2:5:0" ⟨2, 5, ['0']⟩ okAll (by rfl) (by decide) (by decide),
   share_identity_amended.2.2.2.2 (initNodeB 4) "SHARE:1:5:0" "SHARE:2:5:0"
     ⟨1, 5, ['0']⟩ ⟨2, 5, ['0']⟩ (by rfl) (by rfl) (by decide) (by decide)
     (by decide) (by decide)⟩

/-- Iterated firings of already-scheduled generation events (timestep and
per-peer send outcome for each firing). -/
def iterGenA (st : StateA) (l : List (Nat × (Nat → Bool))) : StateA :=
  l.foldl (fun s p => (generateAndGossipA s p.1 p.2).1) st

/-- C4 counterexample: after `Stop()`, a node whose `peers` list is empty
hits the `peers.empty()` branch of `GenerateAndGossipShare` *before* the
`!isrunning` check, so an already-scheduled generation event that fires after
the stop does reschedule a further generation event (the returned flag is
`true`), contradicting the claim that no reschedule happens. -/
theorem stop_reschedule_cex :
    (stopA (initNodeA 0)).isrunning = false
      ∧ (stopA (initNodeA 0)).peers = []
      ∧ (generateAndGossipA (stopA (initNodeA 0)) 0 okAll).2 = true := by
  exact ⟨rfl, rfl, rfl⟩

/-- C4 (amended): after `Stop()` the node's `isrunning` flag is false, and
any generation event that fires afterwards takes no effect on the node state:
it creates no share, never increments `sharesGenerated` (also across any
number of further firings), and — provided the peer list is non-empty — does
not reschedule.  A stopped node with an *empty* peer list, however, takes the
`peers.empty()` branch first and does reschedule (while still generating
nothing). -/
theorem stop_generation_amended (st : StateA) (tstep : Nat) (ok : Nat → Bool)
    (l : List (Nat × (Nat → Bool))) :
    (stopA st).isrunning = false ∧
    (st.isrunning = false → (generateAndGossipA st tstep ok).1 = st) ∧
    (st.isrunning = false →
      ((generateAndGossipA st tstep ok).2 = true ↔ st.peers = [])) ∧
    (st.isrunning = false → iterGenA st l = st) := by
  have hstate : st.isrunning = false →
      ∀ t k, generateAndGossipA st t k = (st, st.peers.isEmpty) := by
    intro hr t k
    unfold generateAndGossipA
    by_cases hp : st.peers.isEmpty = true
    · rw [if_pos hp, hp]
    · rw [if_neg hp, if_neg (by rw [hr]; exact Bool.false_ne_true),
        Bool.eq_false_iff.mpr hp]
  refine ⟨rfl, ?_, ?_, ?_⟩
  · intro hr
    rw [hstate hr tstep ok]
  · intro hr
    rw [hstate hr tstep ok]
    show st.peers.isEmpty = true ↔ st.peers = []
    exact List.isEmpty_iff
  · intro hr
    induction l with
    | nil => rfl
    | cons p rest ih =>
        show iterGenA (generateAndGossipA st p.1 p.2).1 rest = st
        rw [hstate hr p.1 p.2]
        exact ih

theorem stop_generation_amended_witness :
    ((stopA { initNodeA 3 with peers := [1] }).isrunning = false) ∧
    ((generateAndGossipA (stopA { initNodeA 3 with peers := [1] }) 0 okAll).1
      = stopA { initNodeA 3 with peers := [1] }) ∧
    (((generateAndGossipA (stopA { initNodeA 3 with peers := [1] }) 0
        okAll).2 = true)
      ↔ (stopA { initNodeA 3 with peers := [1] }).peers = []) ∧
    (iterGenA (stopA { initNodeA 3 with peers := [1] }) [(0, okAll), (7, okAll)]
      = stopA { initNodeA 3 with peers := [1] }) :=
  ⟨(stop_generation_amended (stopA { initNodeA 3 with peers := [1] }) 0 okAll
      [(0, okAll), (7, okAll)]).1,
   (stop_generation_amended (stopA { initNodeA 3 with peers := [1] }) 0 okAll
      [(0, okAll), (7, okAll)]).2.1 (by decide),
   (stop_generation_amended (stopA { initNodeA 3 with peers := [1] }) 0 okAll
      [(0, okAll), (7, okAll)]).2.2.1 (by decide),
   (stop_generation_amended (stopA { initNodeA 3 with peers := [1] }) 0 okAll
      [(0, okAll), (7, okAll)]).2.2.2 (by decide)⟩

/-- C8: `AddPeer` is idempotent (appends only if absent), but the
registration-handshake path of `ReceiveShare` appends the sender's id with a
bare `peers.push_back(peerId)` and no absence check: a node whose peer list
already holds id 5 ends up with `[5, 5]` after processing `"REGISTER:5"`,
while `AddPeer 5` on the same state correctly leaves `[5]`. -/
theorem register_duplicates_peer :
    ((receiveShareA { initNodeA 0 with peers := [5] } "REGISTER:5" okAll).map
        StateA.peers = .ok [5, 5])
      ∧ (addPeerA { initNodeA 0 with peers := [5] } 5).peers = [5] := by
  exact ⟨rfl, rfl⟩

/-- C5 counterexample: decoding is not raise-free over all input strings.
`"SHARE:a:b:c"` has the three colons, so the guard passes and
`std::stoul("a")` is invoked on the first field, which throws
`std::invalid_argument` (no digits to convert) instead of yielding a
default share. -/
theorem fromString_raises_cex :
    fromStringModel "SHARE:a:b:c" = .error .invalidArgument := by
  rfl

/-- A message failing the three-colon guard decodes to the default share. -/
theorem fromString_guard_false {s : String}
    (h : fromStringGuard s.data = false) :
    fromStringModel s = .ok defaultShareWire := by
  unfold fromStringGuard at h
  unfold fromStringModel
  cases h1 : colon1 s.data with
  | none => rfl
  | some c1 =>
    cases h2 : colon2 s.data with
    | none => rfl
    | some c2 =>
      cases h3 : colon3 s.data with
      | none => rfl
      | some c3 =>
        rw [h1, h2, h3] at h
        simp at h

/-- C5 (amended): decoding a share message that fails the three-colon guard
(the source's own malformedness test for missing colon-separated fields)
returns the no-op default share — modelled all-zero — without raising, and
downstream dedup treats that zero identity like any other: a node that has
already processed shareId 0 drops such a message with only `sharesReceived`
incremented.  Decoding is *not* raise-free for every input string, however:
a message with three colons whose numeric fields do not parse raises
`std::invalid_argument` from `std::stoul` (see the counterexample). -/
theorem fromString_default_amended :
    (∀ (s : String), fromStringGuard s.data = false →
      fromStringModel s = .ok defaultShareWire) ∧
    (∀ (st : StateA) (s : String) (ok : Nat → Bool),
      fromStringGuard s.data = false →
      startsWithRegister s.data = false →
      (0 : Nat) ∈ st.processedShares →
      receiveShareA st s ok
        = .ok { st with sharesReceived := st.sharesReceived + 1 }) := by
  constructor
  · intro s h
    exact fromString_guard_false h
  · intro st s ok h hreg hz
    rw [receiveA_not_register hreg,
      receiveBody_dup (fromString_guard_false h) st ok hz]

theorem fromString_default_amended_witness :
    (fromStringGuard "junk".data = false
      ∧ startsWithRegister "junk".data = false
      ∧ (0 : Nat) ∈ [(0 : Nat)]) ∧
    (fromStringModel "junk" = .ok defaultShareWire) ∧
    (receiveShareA { initNodeA 0 with processedShares := [0] } "junk" okAll
      = .ok { { initNodeA 0 with processedShares := [0] } with
              sharesReceived :=
                { initNodeA 0 with processedShares := [0] }.sharesReceived
                  + 1 }) :=
  ⟨⟨by decide, by decide, by decide⟩,
   fromString_default_amended.1 "junk" (by decide),
   fromString_default_amended.2 { initNodeA 0 with processedShares := [0] }
     "junk" okAll (by decide) (by decide) (by decide)⟩

/-- `GenerateAndGossipShare` (simulation variant) with an empty peer list is
a no-op producing no share. -/
theorem generateB_empty {st : StateB} (hp : st.peers.isEmpty = true) :
    generateAndGossipB st = (st, none) := by
  unfold generateAndGossipB
  rw [if_pos hp]

/-- `GenerateAndGossipShare` (simulation variant) with peers: the produced
identity pair is `(m_id, m_sharesGenerated)` and the counter advances. -/
theorem generateB_nonempty {st : StateB} (hp : st.peers.isEmpty = false) :
    generateAndGossipB st
      = (gossipB
          { st with
            sharesGenerated := st.sharesGenerated + 1,
            processed := pairInsert (st.id, st.sharesGenerated) st.processed },
         some (st.id, st.sharesGenerated)) := by
  unfold generateAndGossipB
  rw [if_neg (by rw [hp]; exact Bool.false_ne_true)]

/-- With no peers, generation firings produce no identity pairs. -/
theorem genRunB_empty (n : Nat) : ∀ (st : StateB), st.peers.isEmpty = true →
    (genRunB st n).2 = [] := by
  induction n with
  | zero => intro st _; rfl
  | succ n ih =>
      intro st hp
      unfold genRunB
      rw [generateB_empty hp]
      exact ih st hp

/-- With peers present, the identity pairs produced by `n` generation
firings on one node are `(id, g), (id, g+1), …, (id, g+n-1)`, where `g` is
the starting `m_sharesGenerated` value. -/
theorem genRunB_produced (n : Nat) : ∀ (st : StateB),
    st.peers.isEmpty = false →
    (genRunB st n).2
      = (List.range' st.sharesGenerated n).map (fun g => (st.id, g)) := by
  induction n with
  | zero => intro st _; rfl
  | succ n ih =>
      intro st hp
      unfold genRunB
      rw [generateB_nonempty hp]
      have h := ih (gossipB
        { st with
          sharesGenerated := st.sharesGenerated + 1,
          processed := pairInsert (st.id, st.sharesGenerated) st.processed })
        hp
      show (st.id, st.sharesGenerated) ::
          (genRunB (gossipB
            { st with
              sharesGenerated := st.sharesGenerated + 1,
              processed :=
                pairInsert (st.id, st.sharesGenerated) st.processed }) n).2
        = _
      rw [h]
      rfl

/-- Every identity pair produced by a node carries that node's id as its
origin component. -/
theorem genRunB_mem_fst {st : StateB} {n : Nat} {p : Nat × Nat}
    (h : p ∈ (genRunB st n).2) : p.1 = st.id := by
  by_cases hp : st.peers.isEmpty = true
  · rw [genRunB_empty n st hp] at h
    cases h
  · rw [genRunB_produced n st (Bool.eq_false_iff.mpr hp)] at h
    obtain ⟨g, _, rfl⟩ := List.mem_map.mp h
    rfl

/-- C3 counterexample: in the node variant, `GenerateUniqueShareId`
truncates its 64-bit seed to `uint32_t`, so one node can reproduce a
shareId: node 0's generation number 0 at a timestep `≡ 0 (mod 1000)` and its
generation number 4294967 at a timestep `≡ 296 (mod 1000)` both yield
shareId 0 (the two seeds differ by exactly `2 ^ 32`), although they are
different calls of the same origin node. -/
theorem shareId_collision_cex :
    shareIdA 0 0 0 = shareIdA 0 4294967 296 ∧ (0 : Nat) ≠ 4294967 :=
  ⟨by rfl, by decide⟩

/-- C3 (amended): identity uniqueness holds unconditionally in the
simulation variant — a run of generation firings on one node produces
pairwise-distinct `(originNodeId, shareId)` pairs (the shareId is the
monotonically increasing `m_sharesGenerated` counter), and pairs produced by
nodes with different ids are always distinct.  In the node variant
(modelling `std::hash<uint64_t>` as the identity, as on common 64-bit
standard libraries), `GenerateUniqueShareId` yields distinct ids for two
generation calls of one node only under a bound: it does so whenever the two
generation counts differ by at most 4294966 (always true in practice), but
truncation to `uint32_t` admits collisions beyond that (see the
counterexample). -/
theorem share_uniqueness_amended :
    (∀ (st : StateB) (n : Nat), ((genRunB st n).2).Nodup) ∧
    (∀ (st1 st2 : StateB) (n1 n2 : Nat) (p q : Nat × Nat),
      p ∈ (genRunB st1 n1).2 → q ∈ (genRunB st2 n2).2 →
      st1.id ≠ st2.id → p ≠ q) ∧
    (∀ (nid g1 t1 g2 t2 : Nat), g1 < g2 → g2 < 2 ^ 32 →
      g2 - g1 ≤ 4294966 → shareIdA nid g1 t1 ≠ shareIdA nid g2 t2) := by
  refine ⟨?_, ?_, ?_⟩
  · intro st n
    by_cases hp : st.peers.isEmpty = true
    · rw [genRunB_empty n st hp]
      exact List.nodup_nil
    · rw [genRunB_produced n st (Bool.eq_false_iff.mpr hp)]
      refine List.Nodup.map ?_ (List.nodup_range' _ _)
      intro a b hab
      exact congrArg Prod.snd hab
  · intro st1 st2 n1 n2 p q hp hq hne
    intro hpq
    apply hne
    rw [← genRunB_mem_fst hp, ← genRunB_mem_fst hq, hpq]
  · intro nid g1 t1 g2 t2 h12 hg2 hdiff h
    unfold shareIdA at h
    rw [Nat.mod_eq_of_lt (lt_trans h12 hg2), Nat.mod_eq_of_lt hg2] at h
    have ht1 : t1 % 1000 < 1000 := Nat.mod_lt _ (by norm_num)
    have ht2 : t2 % 1000 < 1000 := Nat.mod_lt _ (by norm_num)
    have hle : nid % 2 ^ 32 * 1000000 + g1 * 1000 + t1 % 1000
        ≤ nid % 2 ^ 32 * 1000000 + g2 * 1000 + t2 % 1000 := by omega
    have hdvd : (2 ^ 32 : Nat)
        ∣ (nid % 2 ^ 32 * 1000000 + g2 * 1000 + t2 % 1000)
          - (nid % 2 ^ 32 * 1000000 + g1 * 1000 + t1 % 1000) :=
      (Nat.modEq_iff_dvd' hle).mp h
    have hpos : 0 < (nid % 2 ^ 32 * 1000000 + g2 * 1000 + t2 % 1000)
        - (nid % 2 ^ 32 * 1000000 + g1 * 1000 + t1 % 1000) := by omega
    have hbig := Nat.le_of_dvd hpos hdvd
    omega

theorem share_uniqueness_amended_witness :
    (((0 : Nat), (0 : Nat)) ∈ (genRunB { initNodeB 0 with peers := [1] } 2).2
      ∧ ((1 : Nat), (0 : Nat)) ∈ (genRunB { initNodeB 1 with peers := [0] } 2).2
      ∧ ({ initNodeB 0 with peers := [1] } : StateB).id
          ≠ ({ initNodeB 1 with peers := [0] } : StateB).id
      ∧ (0 : Nat) < 1 ∧ (1 : Nat) < 2 ^ 32 ∧ 1 - 0 ≤ 4294966) ∧
    ((genRunB { initNodeB 0 with peers := [1] } 2).2).Nodup ∧
    ((0, 0) : Nat × Nat) ≠ ((1, 0) : Nat × Nat) ∧
    shareIdA 5 0 0 ≠ shareIdA 5 1 999 :=
  ⟨⟨by decide, by decide, by decide, by decide, by decide, by decide⟩,
   share_uniqueness_amended.1 { initNodeB 0 with peers := [1] } 2,
   share_uniqueness_amended.2.1 { initNodeB 0 with peers := [1] }
     { initNodeB 1 with peers := [0] } 2 2 (0, 0) (1, 0)
     (by decide) (by decide) (by decide),
   share_uniqueness_amended.2.2 5 0 0 1 999 (by decide) (by norm_num)
     (by decide)⟩

/-- `registerChars` is exactly the character content of the source's
`"REGISTER:"` literal. -/
theorem registerChars_spec : registerChars = "REGISTER:".data := by rfl

/-! ### Topology lemmas -/

theorem addPeerT_peers_mono {t : TopoB} {a b x y : Nat}
    (h : x ∈ t.peers y) : x ∈ (addPeerT t a b).peers y := by
  unfold addPeerT
  by_cases hm : b ∈ t.peers a
  · rw [if_pos hm]
    exact h
  · rw [if_neg hm]
    show x ∈ (if y = a then t.peers a ++ [b] else t.peers y)
    by_cases hy : y = a
    · rw [if_pos hy]
      subst hy
      exact List.mem_append_left _ h
    · rw [if_neg hy]
      exact h

theorem addPeerT_mem_self (t : TopoB) (a b : Nat) :
    b ∈ (addPeerT t a b).peers a := by
  unfold addPeerT
  by_cases hm : b ∈ t.peers a
  · rw [if_pos hm]
    exact hm
  · rw [if_neg hm]
    show b ∈ (if a = a then t.peers a ++ [b] else t.peers a)
    rw [if_pos rfl]
    exact List.mem_append_right _ (List.mem_singleton.mpr rfl)

theorem addPeerT_links (t : TopoB) (a b : Nat) :
    (addPeerT t a b).links = t.links := by
  unfold addPeerT
  by_cases hm : b ∈ t.peers a
  · rw [if_pos hm]
  · rw [if_neg hm]

theorem connectNodesT_links (t : TopoB) (i j : Nat) :
    (connectNodesT t i j).links = t.links ++ [(i, j)] := by
  unfold connectNodesT
  rw [addPeerT_links, addPeerT_links]

theorem connectNodesT_peers_mono {t : TopoB} {i j x y : Nat}
    (h : x ∈ t.peers y) : x ∈ (connectNodesT t i j).peers y :=
  addPeerT_peers_mono (addPeerT_peers_mono h)

theorem connectNodesT_mem_fst (t : TopoB) (i j : Nat) :
    j ∈ (connectNodesT t i j).peers i :=
  addPeerT_peers_mono (addPeerT_mem_self { t with links := t.links ++ [(i, j)] } i j)

theorem connectNodesT_mem_snd (t : TopoB) (i j : Nat) :
    i ∈ (connectNodesT t i j).peers j :=
  addPeerT_mem_self (addPeerT { t with links := t.links ++ [(i, j)] } i j) j i

theorem connectNodesT_ne_nil {t : TopoB} {y : Nat} (i j : Nat)
    (h : t.peers y ≠ []) : (connectNodesT t i j).peers y ≠ [] := by
  obtain ⟨x, hx⟩ := List.exists_mem_of_ne_nil _ h
  exact List.ne_nil_of_mem (connectNodesT_peers_mono hx)

/-- The symmetry invariant: every recorded connection key has both endpoints
in each other's peer lists. -/
def linkSym (t : TopoB) : Prop :=
  ∀ a b, (a, b) ∈ t.links → b ∈ t.peers a ∧ a ∈ t.peers b

theorem connectNodesT_sym {t : TopoB} (i j : Nat) (h : linkSym t) :
    linkSym (connectNodesT t i j) := by
  intro a b hm
  rw [connectNodesT_links] at hm
  rcases List.mem_append.mp hm with hold | hnew
  · exact ⟨connectNodesT_peers_mono (h a b hold).1,
           connectNodesT_peers_mono (h a b hold).2⟩
  · obtain ⟨ha, hb⟩ := Prod.mk.injEq .. ▸ List.mem_singleton.mp hnew
    subst ha
    subst hb
    exact ⟨connectNodesT_mem_fst t a b, connectNodesT_mem_snd t a b⟩

theorem phase1_sym (n : Nat) (dec : Nat → Nat → Bool) :
    linkSym (phase1 n dec) := by
  unfold phase1
  have hgen : ∀ (ps : List (Nat × Nat)) (t : TopoB), linkSym t →
      linkSym (ps.foldl
        (fun t ij => if dec ij.1 ij.2 then connectNodesT t ij.1 ij.2 else t)
        t) := by
    intro ps
    induction ps with
    | nil => intro t h; exact h
    | cons ij rest ih =>
        intro t h
        show linkSym (rest.foldl _
          (if dec ij.1 ij.2 then connectNodesT t ij.1 ij.2 else t))
        by_cases hd : dec ij.1 ij.2 = true
        · rw [if_pos hd]
          exact ih _ (connectNodesT_sym _ _ h)
        · rw [if_neg hd]
          exact ih _ h
  refine hgen _ _ ?_
  intro a b hm
  cases hm

/-- Equation lemma: the fallback pass on a node that already has a peer. -/
theorem phase2_cons_nonempty {draws : Nat → List Nat} {t : TopoB} {i : Nat}
    (rest : List Nat) (he : (t.peers i).isEmpty = false) :
    phase2 draws (i :: rest) t = phase2 draws rest t := by
  show (if (t.peers i).isEmpty = true then
      match (draws i).find? (fun j => j != i) with
      | none => none
      | some j => phase2 draws rest (connectNodesT t i j)
    else phase2 draws rest t) = phase2 draws rest t
  rw [if_neg (by rw [he]; exact Bool.false_ne_true)]

/-- Equation lemma: the fallback pass on a peerless node whose retry stream
never leaves itself — the `while (j == i)` loop never exits. -/
theorem phase2_cons_empty_none {draws : Nat → List Nat} {t : TopoB} {i : Nat}
    (rest : List Nat) (he : (t.peers i).isEmpty = true)
    (hf : (draws i).find? (fun j => j != i) = none) :
    phase2 draws (i :: rest) t = none := by
  show (if (t.peers i).isEmpty = true then
      match (draws i).find? (fun j => j != i) with
      | none => none
      | some j => phase2 draws rest (connectNodesT t i j)
    else phase2 draws rest t) = none
  rw [if_pos he, hf]

/-- Equation lemma: the fallback pass on a peerless node with a usable
draw. -/
theorem phase2_cons_empty_some {draws : Nat → List Nat} {t : TopoB}
    {i j : Nat} (rest : List Nat) (he : (t.peers i).isEmpty = true)
    (hf : (draws i).find? (fun j => j != i) = some j) :
    phase2 draws (i :: rest) t = phase2 draws rest (connectNodesT t i j) := by
  show (if (t.peers i).isEmpty = true then
      match (draws i).find? (fun j => j != i) with
      | none => none
      | some j => phase2 draws rest (connectNodesT t i j)
    else phase2 draws rest t) = phase2 draws rest (connectNodesT t i j)
  rw [if_pos he, hf]

theorem phase2_sym (draws : Nat → List Nat) :
    ∀ (is : List Nat) (t t' : TopoB), phase2 draws is t = some t' →
      linkSym t → linkSym t' := by
  intro is
  induction is with
  | nil =>
      intro t t' h hs
      cases h
      exact hs
  | cons i rest ih =>
      intro t t' h hs
      by_cases he : (t.peers i).isEmpty = true
      · cases hf : (draws i).find? (fun j => j != i) with
        | none =>
            rw [phase2_cons_empty_none rest he hf] at h
            cases h
        | some j =>
            rw [phase2_cons_empty_some rest he hf] at h
            exact ih _ _ h (connectNodesT_sym _ _ hs)
      · rw [phase2_cons_nonempty rest (Bool.eq_false_iff.mpr he)] at h
        exact ih _ _ h hs

theorem phase2_ne_nil (draws : Nat → List Nat) :
    ∀ (is : List Nat) (t t' : TopoB), phase2 draws is t = some t' →
      (∀ y, t.peers y ≠ [] → t'.peers y ≠ [])
        ∧ (∀ i ∈ is, t'.peers i ≠ []) := by
  intro is
  induction is with
  | nil =>
      intro t t' h
      cases h
      exact ⟨fun _ hy => hy, fun i hi => absurd hi (List.not_mem_nil i)⟩
  | cons i rest ih =>
      intro t t' h
      by_cases he : (t.peers i).isEmpty = true
      · cases hf : (draws i).find? (fun j => j != i) with
        | none =>
            rw [phase2_cons_empty_none rest he hf] at h
            cases h
        | some j =>
            rw [phase2_cons_empty_some rest he hf] at h
            have hr := ih _ _ h
            refine ⟨fun y hy => hr.1 y (connectNodesT_ne_nil i j hy), ?_⟩
            intro k hk
            rcases List.mem_cons.mp hk with rfl | hk'
            · exact hr.1 k
                (List.ne_nil_of_mem (connectNodesT_mem_fst t k j))
            · exact hr.2 k hk'
      · rw [phase2_cons_nonempty rest (Bool.eq_false_iff.mpr he)] at h
        have hr := ih _ _ h
        refine ⟨hr.1, ?_⟩
        intro k hk
        rcases List.mem_cons.mp hk with rfl | hk'
        · refine hr.1 k ?_
          intro hnil
          apply he
          rw [hnil]
          rfl
        · exact hr.2 k hk'

theorem phase2_isSome (draws : Nat → List Nat) :
    ∀ (is : List Nat) (t : TopoB),
      (∀ i ∈ is, ∃ d ∈ draws i, d ≠ i) →
      ∃ t', phase2 draws is t = some t' := by
  intro is
  induction is with
  | nil => intro t _; exact ⟨t, rfl⟩
  | cons i rest ih =>
      intro t hd
      by_cases he : (t.peers i).isEmpty = true
      · cases hf : (draws i).find? (fun j => j != i) with
        | none =>
            exfalso
            obtain ⟨d, hdm, hdne⟩ := hd i (List.mem_cons_self i rest)
            have := List.find?_eq_none.mp hf d hdm
            simp at this
            exact hdne this
        | some j =>
            obtain ⟨t', ht'⟩ := ih (connectNodesT t i j)
              (fun k hk => hd k (List.mem_cons_of_mem i hk))
            exact ⟨t', by rw [phase2_cons_empty_some rest he hf]; exact ht'⟩
      · obtain ⟨t', ht'⟩ := ih t (fun k hk => hd k (List.mem_cons_of_mem i hk))
        exact ⟨t', by
          rw [phase2_cons_nonempty rest (Bool.eq_false_iff.mpr he)]
          exact ht'⟩

/-- C6 counterexample: with a single node (`n = 1`), the fallback pass of
`CreateRandomTopology` reaches node 0 with an empty peer list, and every
value `uniform_int_distribution(0, 0)` can produce equals 0, so the
`while (j == i)` retry loop can never exit: topology generation does not
terminate.  (In the model, any finite stream of in-range draws is exhausted
without finding `j ≠ 0`, yielding divergence.) -/
theorem topology_nonterm_cex :
    (createRandomTopologyB 1 (fun _ _ => false)
      (fun _ => [0, 0, 0, 0, 0])).isNone = true := by
  rfl

/-- C6 (amended): whenever every node's retry stream eventually produces a
partner different from itself — which for `n ≥ 2` valid draw streams do with
probability 1 — `CreateRandomTopology` completes, and on completion every
node holds at least one peer.  For `n = 1` no valid draw (all draws are `0`)
can differ from the node itself, so the fallback retry loop never exits and
generation never terminates. -/
theorem topology_mindegree_amended :
    (∀ (n : Nat) (dec : Nat → Nat → Bool) (draws : Nat → List Nat),
      (∀ i, i < n → ∃ d ∈ draws i, d ≠ i) →
      (createRandomTopologyB n dec draws).isSome = true
        ∧ ∀ i, i < n → peersOf (createRandomTopologyB n dec draws) i ≠ []) ∧
    (∀ (dec : Nat → Nat → Bool) (draws : Nat → List Nat),
      (∀ d ∈ draws 0, d < 1) →
      (createRandomTopologyB 1 dec draws).isNone = true) := by
  constructor
  · intro n dec draws hd
    obtain ⟨t', ht'⟩ := phase2_isSome draws (List.range n) (phase1 n dec)
      (fun i hi => hd i (List.mem_range.mp hi))
    have hcreate : createRandomTopologyB n dec draws = some t' := ht'
    constructor
    · rw [hcreate]
      rfl
    · intro i hi
      have := (phase2_ne_nil draws (List.range n) (phase1 n dec) t' ht').2 i
        (List.mem_range.mpr hi)
      rw [hcreate]
      exact this
  · intro dec draws hd
    have h0 : (draws 0).find? (fun j => j != 0) = none := by
      apply List.find?_eq_none.mpr
      intro d hdm
      have : d = 0 := Nat.lt_one_iff.mp (hd d hdm)
      subst this
      simp
    have h1 : phase1 1 dec = emptyTopo := rfl
    have h2 : createRandomTopologyB 1 dec draws
        = phase2 draws [0] emptyTopo := by
      unfold createRandomTopologyB
      rw [h1]
      rfl
    rw [h2, phase2_cons_empty_none [] (by rfl) h0]
    rfl

theorem topology_mindegree_amended_witness :
    ((∀ i, i < 2 → ∃ d ∈ (fun k => [1 - k]) i, d ≠ i)
      ∧ (∀ d ∈ (fun _ : Nat => ([0] : List Nat)) 0, d < 1)) ∧
    ((createRandomTopologyB 2 (fun _ _ => false) (fun k => [1 - k])).isSome
        = true
      ∧ ∀ i, i < 2 →
          peersOf (createRandomTopologyB 2 (fun _ _ => false)
            (fun k => [1 - k])) i ≠ []) ∧
    ((createRandomTopologyB 1 (fun _ _ => true) (fun _ => [0])).isNone
      = true) :=
  ⟨⟨by decide, by decide⟩,
   topology_mindegree_amended.1 2 (fun _ _ => false) (fun k => [1 - k])
     (by decide),
   topology_mindegree_amended.2 (fun _ _ => true) (fun _ => [0]) (by decide)⟩

/-- C7: Peer links are symmetric.  In the simulation variant, every
connection key `(a, b)` recorded by `CreateRandomTopology`/`ConnectNodes`
has `b` in `a`'s peer list and `a` in `b`'s peer list.  In the node variant,
wiring a link `(i, j)` calls `AddPeerSocket`/`AddPeer` on the initiator `i`
(putting `j` in `i`'s peer list) and delivers `"REGISTER:i"` to `j`, whose
receive path records `i` in `j`'s peer list. -/
theorem peer_symmetry :
    (∀ (n : Nat) (dec : Nat → Nat → Bool) (draws : Nat → List Nat)
        (a b : Nat),
      (a, b) ∈ linksOf (createRandomTopologyB n dec draws) →
      b ∈ peersOf (createRandomTopologyB n dec draws) a
        ∧ a ∈ peersOf (createRandomTopologyB n dec draws) b) ∧
    (∀ (stI stJ : StateA) (j pid : Nat) (msg : String) (tail : List Char)
        (ok : Nat → Bool),
      msg.data = registerChars ++ tail →
      stoulModel tail = .ok pid →
      j ∈ (addPeerA (addPeerSocketA stI j) j).peers
        ∧ (receiveShareA stJ msg ok).map
            (fun s => s.peers.contains (pid % 2 ^ 32)) = .ok true) := by
  constructor
  · intro n dec draws a b hm
    cases hc : createRandomTopologyB n dec draws with
    | none =>
        rw [hc] at hm
        cases hm
    | some t =>
        have hsym : linkSym t :=
          phase2_sym draws (List.range n) (phase1 n dec) t hc
            (phase1_sym n dec)
        rw [hc] at hm
        exact hsym a b hm
  · intro stI stJ j pid msg tail ok hmsg hu
    constructor
    · unfold addPeerA
      by_cases hm : j ∈ (addPeerSocketA stI j).peers
      · rw [if_pos hm]
        exact hm
      · rw [if_neg hm]
        show j ∈ (addPeerSocketA stI j).peers ++ [j]
        exact List.mem_append_right _ (List.mem_singleton.mpr rfl)
    · have hreg : startsWithRegister msg.data = true := by
        rw [hmsg]
        show List.isPrefixOf registerChars (registerChars ++ tail) = true
        simp [registerChars, List.isPrefixOf]
      have hf : strFind msg.data ':' 0 = some 8 := by
        rw [hmsg]
        rfl
      have hu' : stoulModel (msg.data.drop (8 + 1)) = .ok pid := by
        rw [hmsg]
        show stoulModel tail = .ok pid
        exact hu
      rw [receiveA_register hreg hf hu' stJ ok]
      simp [Except.map]

theorem peer_symmetry_witness :
    (((0 : Nat), (1 : Nat))
        ∈ linksOf (createRandomTopologyB 2 (fun _ _ => true) (fun _ => [0]))
      ∧ "REGISTER:7".data = registerChars ++ ['7']
      ∧ stoulModel ['7'] = .ok 7) ∧
    ((1 : Nat) ∈ peersOf
        (createRandomTopologyB 2 (fun _ _ => true) (fun _ => [0])) 0
      ∧ (0 : Nat) ∈ peersOf
        (createRandomTopologyB 2 (fun _ _ => true) (fun _ => [0])) 1) ∧
    ((2 : Nat) ∈ (addPeerA (addPeerSocketA (initNodeA 5) 2) 2).peers
      ∧ (receiveShareA (initNodeA 9) "REGISTER:7" okAll).map
          (fun s => s.peers.contains (7 % 2 ^ 32)) = .ok true) :=
  ⟨⟨by decide, by decide, by rfl⟩,
   peer_symmetry.1 2 (fun _ _ => true) (fun _ => [0]) 0 1 (by decide),
   peer_symmetry.2 (initNodeA 5) (initNodeA 9) 2 7 "REGISTER:7" ['7'] okAll
     (by decide) (by rfl)⟩
